import Mathlib

/-
  Verification development for the financial-note tagger.

  Shallow embedding of the entity-extraction and tagging engine:
  `src/config.py` (patterns, concept dictionary, priorities, subsection rules),
  `src/tagger.py` (extractors, overlap resolver, tag overlay, subsection
  segmenter) and `src/ner_module.py` (named-entity provider interface).

  Paragraph text is modelled as `List Char`; Python string slicing
  `text[a:b]` (with its clamping behaviour for out-of-range indices and
  non-negative bounds) is `pySlice`.  Python `int` is `Int` where negation
  matters and `Nat` for character offsets, which are never negative in the
  source.  Python's stable `sorted` is modelled by `List.insertionSort`
  with a total preorder: both place an earlier-listed element before
  later-listed elements whose sort key is equal, so they compute the same
  permutation.
-/

namespace FNT

/-- Python whitespace (`\s`, `str.strip`) restricted to the ASCII range the
repository's inputs use. -/

def pyIsSpace (c : Char) : Bool :=
  c = ' ' || c = '\t' || c = '\n' || c = '\r' || c = '\x0b' || c = '\x0c'

/-- Python `text[a:b]` for `0 ≤ a, b`: clamps both bounds to the string. -/

def pySlice (s : List Char) (a b : Nat) : List Char :=
  (s.take b).drop a

/-- Python `str.strip()` (ASCII whitespace). -/

def pyStrip (s : List Char) : List Char :=
  ((s.dropWhile pyIsSpace).reverse.dropWhile pyIsSpace).reverse

/-- Prefix test: `needle` is a prefix of `hay` (helper for the Python `in` operator). -/

def startsWithList : List Char → List Char → Bool
  | [], _ => true
  | _ :: _, [] => false
  | c :: cs, d :: ds => c = d && startsWithList cs ds

/-- Python `needle in hay` substring test. -/

def hasSubstring (hay needle : List Char) : Bool :=
  match hay with
  | [] => startsWithList needle []
  | _ :: rest => startsWithList needle hay || hasSubstring rest needle

/-- Model of `tagger.py` `Entity` dataclass.  The Python field `end` is a Lean
keyword, so it is called `stop` here; `text` is the matched substring and
`priority` the value from `ENTITY_PRIORITIES`. -/

structure Entity where
  start : Nat
  stop : Nat
  tag_id : String
  text : List Char
  priority : Int
deriving Repr, DecidableEq

/-- Model of `config.py` `ENTITY_PRIORITIES` table (higher number wins conflicts). -/

def ENTITY_PRIORITIES (k : String) : Int :=
  if k = ("IncorporationDate") then 100
  else if k = ("AddressOfRegisteredOfficeOfEntity") then 90
  else if k = ("EntityPrimaryTradingSymbol") then 85
  else if k = ("NameOfReportingEntityOrOtherMeansOfIdentification") then 80
  else if k = ("Financial_Amount_Placeholder") then 70
  else if k = ("Financial_Concept_Placeholder") then 60
  else if k = ("Date_Placeholder") then 50
  else 0

/-- Model of `config.py` `TAG_IDS` mapping. -/

def TAG_IDS (k : String) : String :=
  if k = ("note_root") then "NatureOfOperationsAndGoingConcernNote"
  else if k = ("header") then "NatureOfOperationsAndGoingConcernHeader"
  else if k = ("operations_description") then
    "DescriptionOfNatureOfEntitysOperationsAndPrincipalActivities"
  else if k = ("going_concern_description") then
    "DescriptionOfUncertaintiesOfEntitysAbilityToContinueAsGoingConcern"
  else if k = ("company_name") then "NameOfReportingEntityOrOtherMeansOfIdentification"
  else if k = ("incorporation_date") then "IncorporationDate"
  else if k = ("address") then "AddressOfRegisteredOfficeOfEntity"
  else if k = ("trading_symbol") then "EntityPrimaryTradingSymbol"
  else if k = ("date") then "Date_Placeholder"
  else if k = ("financial_concept") then "Financial_Concept_Placeholder"
  else if k = ("financial_amount") then "Financial_Amount_Placeholder"
  else ""

/-- Sort key order of `_remove_overlaps`:
`key=lambda e: (e.start, -e.priority, -(e.end - e.start))`, compared
lexicographically, as Python's `sorted` does. -/

def sortLE (a b : Entity) : Prop :=
  a.start < b.start ∨
    (a.start = b.start ∧
      (-a.priority < -b.priority ∨
        (-a.priority = -b.priority ∧
          -((a.stop : Int) - a.start) ≤ -((b.stop : Int) - b.start))))

instance : DecidableRel sortLE := fun a b => by
  unfold sortLE; infer_instance

/-- The greedy sweep of `_remove_overlaps`: `last_end` starts at `-1`; a
candidate is accepted iff `candidate.start >= last_end` and then
`last_end` becomes `candidate.end`. -/

def sweep : Int → List Entity → List Entity
  | _, [] => []
  | lastEnd, e :: rest =>
    if lastEnd ≤ (e.start : Int) then e :: sweep (e.stop : Int) rest
    else sweep lastEnd rest

/-- Model of `tagger.py` `FinancialNoteTagger._remove_overlaps`. -/

def remove_overlaps (entities : List Entity) : List Entity :=
  if entities = [] then []
  else sweep (-1) (List.insertionSort sortLE entities)

/-- Sort key of the final `entities.sort(key=lambda e: e.start)` in
`extract_entities` and of the sort inside `tag_text`. -/

def startLE (a b : Entity) : Prop := a.start ≤ b.start

instance : DecidableRel startLE := fun a b => by
  unfold startLE; infer_instance

/-- The spec's wording of the resolver order: start ascending, then
priority descending, then span length descending. -/

def specLE (a b : Entity) : Prop :=
  a.start < b.start ∨
    (a.start = b.start ∧
      (b.priority < a.priority ∨
        (a.priority = b.priority ∧
          (b.stop : Int) - b.start ≤ (a.stop : Int) - a.start)))

instance : DecidableRel specLE := fun a b => by
  unfold specLE; infer_instance

/-- The text stream produced by the loop of `tag_text`, with the tag
markers removed: for each entity, the untagged text before it
(`text[last_pos:entity.start]`) then the entity's `text` field; after the
last entity the trailing `text[last_pos:]`. -/

def tagPieces (s : List Char) : Nat → List Entity → List (List Char)
  | pos, [] => [pySlice s pos s.length]
  | pos, e :: rest => pySlice s pos e.start :: e.text :: tagPieces s e.stop rest

/-- The `<Tag id="...">...</Tag>` chunk `tag_text` emits per entity. -/

def tagMarkup (e : Entity) : List Char :=
  ("<Tag id=\"").toList ++ e.tag_id.toList ++ ("\">").toList ++ e.text ++
    ("</Tag>").toList

/-- The chunk list built by `tag_text`'s loop (`result` in the source). -/

def tagChunks (s : List Char) : Nat → List Entity → List (List Char)
  | pos, [] => [pySlice s pos s.length]
  | pos, e :: rest => pySlice s pos e.start :: tagMarkup e :: tagChunks s e.stop rest

/-- Model of `tagger.py` `FinancialNoteTagger.tag_text`: returns the text unchanged
for an empty entity list, otherwise sorts the entities by `start`
(stably) and joins the chunk list. -/

def tag_text (s : List Char) (entities : List Entity) : List Char :=
  if entities = [] then s
  else (tagChunks s 0 (List.insertionSort startLE entities)).flatten

/-- Model of `tag_text`'s output text stream with the tag markers removed. -/

def tagStream (s : List Char) (entities : List Entity) : List (List Char) :=
  tagPieces s 0 (List.insertionSort startLE entities)

/-- Model of `{ 'text': ..., 'block_index': ... }` paragraph dict; the block index
is an opaque identifier. -/

structure Para where
  text : List Char
  block_index : Nat
deriving Repr, DecidableEq

/-- Subsection dict built by `detect_subsections`.  Non-header sections
are created without a `skip_tagging` key; the consumer
(`xml_handler.py`) reads it with `.get('skip_tagging', False)`, so the
missing key is modelled as `false`. -/

structure Subsec where
  tag_id : String
  paragraphs : List Para
  skip_tagging : Bool
deriving Repr, DecidableEq

/-- Model of `config.py` `SubsectionRules.is_header` check
`re.match(r'^\d+\.', text)`: at least one leading digit and, since `.`
never matches a digit, the character right after the maximal leading
digit run must be `'.'` (backtracking inside `\d+` cannot succeed
otherwise). -/

def startsDigitsDot (t : List Char) : Bool :=
  match t with
  | [] => false
  | c :: _ => c.isDigit && (t.dropWhile Char.isDigit).head? = some '.'

/-- Negated-dot test for the `text.split('.', 1)` model. -/

def notDot (c : Char) : Bool := c != '.'

/-- Model of `content = text.split('.', 1)[1].strip() if '.' in text else text`
from `SubsectionRules.is_header`: everything after the first `'.'`,
stripped (the no-dot branch is unreachable after the digit check). -/

def headerContent (t : List Char) : List Char :=
  if '.' ∈ t then pyStrip ((t.dropWhile notDot).drop 1)
  else t

/-- Model of `config.py` `SubsectionRules.is_header`.  The float comparison
`sum(1 for c in content if c.isupper()) / max(len(content), 1) > 0.5` is
rendered exactly over the integers as `2 * count > max(len, 1)` (the
double rounding of `count/len` cannot cross `0.5` for any realistic
paragraph length below `2^53`). -/

def is_header (paragraph_text : List Char) : Bool :=
  let t := pyStrip paragraph_text
  if startsDigitsDot t then
    let content := headerContent t
    2 * content.countP Char.isUpper > max content.length 1
  else false

/-- The going-concern trigger of `detect_subsections`:
`'going concern' in text.lower() or 'material uncertainty' in
text.lower() or 'These consolidated financial statements' in text`. -/

def should_start_going_concern (t : List Char) : Bool :=
  hasSubstring (t.map Char.toLower) (("going concern").toList) ||
    hasSubstring (t.map Char.toLower) (("material uncertainty").toList) ||
    hasSubstring t (("These consolidated financial statements").toList)

/-- Model of `current_section['paragraphs'].append(para)`. -/

def appendPara (sec : Subsec) (p : Para) : Subsec :=
  { sec with paragraphs := sec.paragraphs ++ [p] }

/-- The loop body of `tagger.py` `detect_subsections`, with the open
section (`current_section`) passed explicitly. -/

def detectAux : List Para → Option Subsec → List Subsec
  | [], cur => cur.toList
  | p :: rest, cur =>
    if is_header p.text then
      cur.toList ++ ⟨TAG_IDS ("header"), [p], true⟩ :: detectAux rest none
    else if should_start_going_concern p.text &&
        (match cur with
          | none => true
          | some c => decide (c.tag_id ≠ TAG_IDS ("going_concern_description"))) then
      cur.toList ++
        detectAux rest (some ⟨TAG_IDS ("going_concern_description"), [p], false⟩)
    else
      match cur with
      | none => detectAux rest (some ⟨TAG_IDS ("operations_description"), [p], false⟩)
      | some c => detectAux rest (some (appendPara c p))

/-- Model of `tagger.py` `FinancialNoteTagger.detect_subsections`. -/

def detect_subsections (paragraphs : List Para) : List Subsec :=
  detectAux paragraphs none

/-- Model of `ner_module.py` `NEREntity` dataclass: fields `text`, `label`,
`start`, `end` (plus an unused `confidence` float, omitted).  The
Python field `end` is again called `stop`. -/

structure NEREntity where
  text : List Char
  label : String
  start : Nat
  stop : Nat
deriving Repr, DecidableEq

/-- Python attribute lookup `e.label_` on an `NEREntity`.  The dataclass
defines `label`, not `label_` (that is the spaCy `Span` field), so the
lookup never yields a value — in Python it raises `AttributeError`. -/

def NEREntity.labelUnderscoreAttr (_ : NEREntity) : Option String := none

/-- Model of `ner_module.py` `FinancialNER.extract_organizations` applied to the
entity list returned by `extract_entities`:
`[e for e in entities if e.label_ == "ORG"]`.  Evaluating `e.label_`
raises, so the comprehension is modelled in `Except`: the first element
(if any) aborts it. -/

def extract_organizations (entities : List NEREntity) :
    Except String (List NEREntity) :=
  entities.foldlM
    (fun acc e =>
      match e.labelUnderscoreAttr with
      | some l => Except.ok (if l = ("ORG") then acc ++ [e] else acc)
      | none =>
        Except.error ("AttributeError: NEREntity object has no attribute label_"))
    []

/-- ASCII word character for Python's `\b` (`[A-Za-z0-9_]`). -/

def isWordChar (c : Char) : Bool := c.isAlpha || c.isDigit || c = '_'

/-- Word-ness of the character at index `i` (out of range counts as
non-word). -/

def isWordAt (s : List Char) (i : Nat) : Bool :=
  match s[i]? with
  | some c => isWordChar c
  | none => false

/-- Python `\b` at `pos`: word-ness differs between the previous
position and this one. -/

def wordBoundary (s : List Char) (pos : Nat) : Bool :=
  (match pos with
    | 0 => false
    | p + 1 => isWordAt s p) != isWordAt s pos

/-- Syntax of the regular expressions of `config.py` / `tagger.py`:
character classes, concatenation, alternation (leftmost preferred),
greedy and lazy star, greedy option, the single capture group each
pattern uses, and the zero-width `\b`. -/

inductive RE where
  | eps : RE
  | cls : (Char → Bool) → RE
  | seq : RE → RE → RE
  | alt : RE → RE → RE
  | star : RE → RE
  | lazyStar : RE → RE
  | opt : RE → RE
  | grp : RE → RE
  | wordB : RE

/-- Result of a regex run: end position and the group-1 span, if set. -/

abbrev MRes := Option (Nat × Option (Nat × Nat))

/-- Backtracking matcher with Python `re` preference order: alternation
prefers the left branch, greedy `*`/`?` prefer consuming, lazy `*?`
prefers not consuming.  Star iterations demand progress (every starred
subpattern of the source consumes at least one character, so this agrees
with Python).  `fuel` bounds the recursion depth and only needs to be
large enough; it is threaded structurally so the kernel can evaluate the
definition. -/

def runRE (s : List Char) : Nat → RE → Nat → Option (Nat × Nat) →
    (Nat → Option (Nat × Nat) → MRes) → MRes
  | 0, _, _, _, _ => none
  | fuel + 1, re, pos, g, k =>
    match re with
    | .eps => k pos g
    | .cls p =>
      match s[pos]? with
      | some c => if p c then k (pos + 1) g else none
      | none => none
    | .seq a b => runRE s fuel a pos g fun p' g' => runRE s fuel b p' g' k
    | .alt a b =>
      match runRE s fuel a pos g k with
      | some r => some r
      | none => runRE s fuel b pos g k
    | .opt a =>
      match runRE s fuel a pos g k with
      | some r => some r
      | none => k pos g
    | .star a =>
      match runRE s fuel a pos g (fun p' g' =>
          if pos < p' then runRE s fuel (.star a) p' g' k else none) with
      | some r => some r
      | none => k pos g
    | .lazyStar a =>
      match k pos g with
      | some r => some r
      | none =>
        runRE s fuel a pos g fun p' g' =>
          if pos < p' then runRE s fuel (.lazyStar a) p' g' k else none
    | .grp a => runRE s fuel a pos g fun p' _ => k p' (some (pos, p'))
    | .wordB => if wordBoundary s pos then k pos g else none

/-- Ample recursion-depth budget for the patterns of this repository. -/

def reFuel (s : List Char) : Nat := 50 * (s.length + 2) + 200

/-- A match: overall span and the group-1 span (when the pattern has a
group). -/

structure RMatch where
  mstart : Nat
  mend : Nat
  grp1 : Option (Nat × Nat)
deriving Repr, DecidableEq

/-- Attempt to match `re` starting exactly at index `i`. -/

def tryAt (s : List Char) (re : RE) (i : Nat) : Option RMatch :=
  match runRE s (reFuel s) re i none (fun p g => some (p, g)) with
  | some (e, g) => some ⟨i, e, g⟩
  | none => none

/-- Scan loop of `re.search`: leftmost match (positions `i`, `i+1`, …). -/

def searchFrom (s : List Char) (re : RE) : Nat → Nat → Option RMatch
  | _, 0 => none
  | i, fl + 1 =>
    match tryAt s re i with
    | some m => some m
    | none => if i < s.length then searchFrom s re (i + 1) fl else none

/-- Model of `re.search`. -/

def reSearch (s : List Char) (re : RE) : Option RMatch :=
  searchFrom s re 0 (s.length + 1)

/-- Model of `re.match` (anchored at position 0). -/

def reMatchAt0 (s : List Char) (re : RE) : Option RMatch := tryAt s re 0

/-- Scan loop of `re.finditer`: successive leftmost non-overlapping
matches; continues after each match's end (all the source's patterns
match at least one character). -/

def findFrom (s : List Char) (re : RE) : Nat → Nat → List RMatch
  | _, 0 => []
  | i, fl + 1 =>
    match tryAt s re i with
    | some m => m :: findFrom s re (max m.mend (i + 1)) fl
    | none => if i < s.length then findFrom s re (i + 1) fl else []

/-- Model of `re.finditer`. -/

def reFindAll (s : List Char) (re : RE) : List RMatch :=
  findFrom s re 0 (s.length + 1)

/-- Literal character. -/

def chEq (c : Char) : RE := .cls fun x => x = c

/-- Literal character under `re.IGNORECASE` (ASCII case folding). -/

def chNoCase (c : Char) : RE := .cls fun x => x = c.toLower || x = c.toUpper

/-- Concatenation of per-character regexes for a literal string. -/

def strSeq (f : Char → RE) : List Char → RE
  | [] => .eps
  | [c] => f c
  | c :: rest => .seq (f c) (strSeq f rest)

/-- Case-sensitive literal string. -/

def lit (t : String) : RE := strSeq chEq t.toList

/-- Case-insensitive literal string. -/

def litCI (t : String) : RE := strSeq chNoCase t.toList

/-- Model of `\d`. -/

def digit : RE := .cls Char.isDigit

/-- Model of `[A-Z]`. -/

def upper : RE := .cls Char.isUpper

/-- Model of `\s` (ASCII). -/

def wsCls : RE := .cls pyIsSpace

/-- Model of `r+` = `r r*`. -/

def plus (r : RE) : RE := .seq r (.star r)

/-- Model of `r{n}`. -/

def repN (r : RE) : Nat → RE
  | 0 => .eps
  | n + 1 => .seq r (repN r n)

/-- Greedy tail for bounded repetition: up to `n` more copies, prefer
more. -/

def optChain (r : RE) : Nat → RE
  | 0 => .eps
  | n + 1 => .opt (.seq r (optChain r n))

/-- Model of `r{m,n}` (greedy). -/

def repRange (r : RE) (m n : Nat) : RE := .seq (repN r m) (optChain r (n - m))

/-- Concatenation of a pattern list. -/

def seqList : List RE → RE
  | [] => .eps
  | [r] => r
  | r :: rest => .seq r (seqList rest)

/-- Alternation of a pattern list, leftmost preferred. -/

def altList : List RE → RE
  | [] => .cls fun _ => false
  | [r] => r
  | r :: rest => .alt r (altList rest)

/-- The month-name alternation of `config.py`'s date patterns. -/

def monthNames : List String :=
  ["January", "February", "March", "April", "May", "June", "July",
    "August", "September", "October", "November", "December"]

/-- Case-sensitive month alternation (the date patterns carry no
`re.IGNORECASE` flag). -/

def monthRE : RE := altList (monthNames.map lit)

/-- Case-insensitive month alternation (inside `INCORPORATION_CONTEXT`,
which is searched with `re.IGNORECASE`). -/

def monthREci : RE := altList (monthNames.map litCI)

/-- Model of `Patterns.DATE_PATTERNS[0]`: full month-day-year. -/

def datePattern1 : RE :=
  seqList [.grp monthRE, plus wsCls, repRange digit 1 2, chEq ',',
    plus wsCls, repN digit 4]

/-- Model of `Patterns.DATE_PATTERNS[1]`: month-year. -/

def datePattern2 : RE := seqList [.grp monthRE, plus wsCls, repN digit 4]

/-- Model of `Patterns.DATE_PATTERNS[2]`: bare 19xx/20xx year with `\b` fences. -/

def datePattern3 : RE :=
  seqList [.wordB, .grp (.alt (lit ("19")) (lit ("20"))), repN digit 2,
    .wordB]

/-- Model of `Patterns.DATE_PATTERNS`. -/

def DATE_PATTERNS : List RE := [datePattern1, datePattern2, datePattern3]

/-- Model of `Patterns.AMOUNT_PATTERN`:
`\$\d{1,3}(?:,\d{3})*(?:\.\d{2})?`. -/

def AMOUNT_PATTERN : RE :=
  seqList [chEq '$', repRange digit 1 3,
    .star (.seq (chEq ',') (repN digit 3)),
    .opt (.seq (chEq '.') (repN digit 2))]

/-- Model of `[A-Za-z]`. -/

def alphaCls : RE := .cls Char.isAlpha

/-- Model of `[A-Za-z\s]`. -/

def alphaWsCls : RE := .cls fun c => c.isAlpha || pyIsSpace c

/-- Model of `[A-Za-z\s,]`. -/

def alphaWsCommaCls : RE := .cls fun c => c.isAlpha || pyIsSpace c || c = ','

/-- Model of `Patterns.ADDRESS_PATTERN`. -/

def ADDRESS_PATTERN : RE :=
  seqList [plus digit,
    .opt (altList [lit ("st"), lit ("nd"), lit ("rd"), lit ("th")]),
    plus wsCls, lit ("Floor,"), plus wsCls, plus digit, plus wsCls,
    plus alphaWsCls, lit ("Street,"), plus wsCls, plus alphaWsCommaCls,
    chEq ',', plus wsCls, upper, digit, upper, plus wsCls, digit, upper,
    digit]

/-- Opening straight or typographic double quote. -/

def quoteOpen : RE := .cls fun c => c = '"' || c = Char.ofNat 0x201C

/-- Closing straight or typographic double quote. -/

def quoteClose : RE := .cls fun c => c = '"' || c = Char.ofNat 0x201D

/-- Model of `Patterns.TRADING_SYMBOL_PATTERN`:
`under the symbol\s+["“]([A-Z]{2,5})["”]`. -/

def TRADING_SYMBOL_PATTERN : RE :=
  seqList [lit ("under the symbol"), plus wsCls, quoteOpen,
    .grp (repRange upper 2 5), quoteClose]

/-- Model of `.` under Python's default mode: any character but newline. -/

def dotAny : RE := .cls fun c => c != '\n'

/-- Model of `Patterns.INCORPORATION_CONTEXT` (searched with `re.IGNORECASE`):
`was incorporated.*?on\s+((Month)\s+\d{1,2},\s+\d{4})`. -/

def INCORPORATION_CONTEXT : RE :=
  seqList [litCI ("was incorporated"), .lazyStar dotAny, litCI ("on"),
    plus wsCls,
    .grp (seqList [monthREci, plus wsCls, repRange digit 1 2, chEq ',',
      plus wsCls, repN digit 4])]

/-- The regex of `_extract_company_names_regex`:
`^([A-Z][a-zA-Z]+\s+Ltd\.)`, used with `re.match`. -/

def COMPANY_REGEX : RE :=
  .grp (seqList [upper, plus alphaCls, plus wsCls, lit ("Ltd.")])

/-- Model of `config.py` `FINANCIAL_CONCEPTS` dictionary, in insertion order. -/

def FINANCIAL_CONCEPTS : List (String × String) :=
  [("working capital deficiency", "Financial_Concept_Placeholder"),
    ("accumulated deficit", "Financial_Concept_Placeholder"),
    ("loss", "Financial_Concept_Placeholder"),
    ("operating activities", "Financial_Concept_Placeholder")]

/-- The per-concept pattern of `_extract_financial_concepts`:
`r'\b' + re.escape(concept) + r'\b'` with `re.IGNORECASE`. -/

def conceptPattern (c : String) : RE := seqList [.wordB, litCI c, .wordB]

/-- Model of `tagger.py` `_extract_incorporation_dates`: `re.search` of
`INCORPORATION_CONTEXT`, emitting group 1. -/

def extract_incorporation_dates (s : List Char) : List Entity :=
  match reSearch s INCORPORATION_CONTEXT with
  | some m =>
    match m.grp1 with
    | some gs =>
      [⟨gs.1, gs.2, TAG_IDS ("incorporation_date"), pySlice s gs.1 gs.2,
        ENTITY_PRIORITIES ("IncorporationDate")⟩]
    | none => []
  | none => []

/-- Model of `tagger.py` `_extract_addresses`: `re.finditer` of
`ADDRESS_PATTERN`. -/

def extract_addresses (s : List Char) : List Entity :=
  (reFindAll s ADDRESS_PATTERN).map fun m =>
    ⟨m.mstart, m.mend, TAG_IDS ("address"), pySlice s m.mstart m.mend,
      ENTITY_PRIORITIES ("AddressOfRegisteredOfficeOfEntity")⟩

/-- Model of `tagger.py` `_extract_trading_symbols`: `re.finditer`, emitting
group 1 (always present on a match of this pattern). -/

def extract_trading_symbols (s : List Char) : List Entity :=
  (reFindAll s TRADING_SYMBOL_PATTERN).filterMap fun m =>
    m.grp1.map fun gs =>
      ⟨gs.1, gs.2, TAG_IDS ("trading_symbol"), pySlice s gs.1 gs.2,
        ENTITY_PRIORITIES ("EntityPrimaryTradingSymbol")⟩

/-- The legal-suffix filter of `_extract_company_names_ner`. -/

def legalSuffixes : List String :=
  ["Ltd.", "Inc.", "Corp.", "Limited", "Corporation"]

/-- Model of `tagger.py` `_extract_company_names_ner` applied to the provider's
organization spans: keep those whose text contains a legal suffix. -/

def extract_company_names_ner (orgs : List NEREntity) : List Entity :=
  (orgs.filter fun org =>
      legalSuffixes.any fun suf => hasSubstring org.text suf.toList).map
    fun org =>
      ⟨org.start, org.stop, TAG_IDS ("company_name"), org.text,
        ENTITY_PRIORITIES ("NameOfReportingEntityOrOtherMeansOfIdentification")⟩

/-- Model of `tagger.py` `_extract_company_names_regex`: `re.match` of
`COMPANY_REGEX`, emitting group 1. -/

def extract_company_names_regex (s : List Char) : List Entity :=
  match reMatchAt0 s COMPANY_REGEX with
  | some m =>
    match m.grp1 with
    | some gs =>
      [⟨gs.1, gs.2, TAG_IDS ("company_name"), pySlice s gs.1 gs.2,
        ENTITY_PRIORITIES ("NameOfReportingEntityOrOtherMeansOfIdentification")⟩]
    | none => []
  | none => []

/-- Model of `tagger.py` `_extract_company_names_hybrid`.  The optional
named-entity provider is modelled by `nerOrgs`: `none` when the provider
is unavailable (the fail-soft steady state), `some orgs` for the
organization spans it returns for this text. -/

def extract_company_names_hybrid (nerOrgs : Option (List NEREntity))
    (s : List Char) : List Entity :=
  (match nerOrgs with
    | some orgs => extract_company_names_ner orgs
    | none => []) ++ extract_company_names_regex s

/-- Model of `tagger.py` `_extract_amounts`: `re.finditer` of `AMOUNT_PATTERN`. -/

def extract_amounts (s : List Char) : List Entity :=
  (reFindAll s AMOUNT_PATTERN).map fun m =>
    ⟨m.mstart, m.mend, TAG_IDS ("financial_amount"),
      pySlice s m.mstart m.mend,
      ENTITY_PRIORITIES ("Financial_Amount_Placeholder")⟩

/-- Model of `tagger.py` `_extract_financial_concepts`: dictionary loop in
insertion order, `\b`-fenced case-insensitive `re.finditer` per
concept. -/

def extract_financial_concepts (s : List Char) : List Entity :=
  (FINANCIAL_CONCEPTS.map fun ct =>
    (reFindAll s (conceptPattern ct.1)).map fun m =>
      ⟨m.mstart, m.mend, TAG_IDS ("financial_concept"),
        pySlice s m.mstart m.mend,
        ENTITY_PRIORITIES ("Financial_Concept_Placeholder")⟩).flatten

/-- Model of `tagger.py` `_extract_dates`: the three general date patterns in
order, all occurrences of each. -/

def extract_dates (s : List Char) : List Entity :=
  (DATE_PATTERNS.map fun p =>
    (reFindAll s p).map fun m =>
      ⟨m.mstart, m.mend, TAG_IDS ("date"), pySlice s m.mstart m.mend,
        ENTITY_PRIORITIES ("Date_Placeholder")⟩).flatten

/-- Model of `tagger.py` `FinancialNoteTagger.extract_entities`: concatenate all
extractors' candidates in layer order, resolve overlaps, sort by
position. -/

def extract_entities (nerOrgs : Option (List NEREntity))
    (s : List Char) : List Entity :=
  List.insertionSort startLE
    (remove_overlaps
      (extract_incorporation_dates s ++ extract_addresses s ++
        extract_trading_symbols s ++ extract_company_names_hybrid nerOrgs s ++
        extract_amounts s ++ extract_financial_concepts s ++
        extract_dates s))

/-- Sufficient syntactic condition for a pattern to fail at a position:
its first obligatory item is a character class rejecting the character
there (or there is no character), or a `\b` with no boundary there.
`oc` is the character at the position, `wb` the boundary flag. -/

def headFails (oc : Option Char) (wb : Bool) : RE → Bool
  | .cls p =>
    match oc with
    | some c => !(p c)
    | none => true
  | .seq a _ => headFails oc wb a
  | .alt a b => headFails oc wb a && headFails oc wb b
  | .grp a => headFails oc wb a
  | .wordB => !wb
  | _ => false

/-- Witness for C9 at the repository's own whitespace-only test input
`"   \n\t   "` . -/

lemma sortLE_iff_specLE (a b : Entity) : sortLE a b ↔ specLE a b := by
  simp only [sortLE, specLE]
  omega

lemma orderedInsert_congr (r s : Entity → Entity → Prop)
    [DecidableRel r] [DecidableRel s] (h : ∀ x y, r x y ↔ s x y)
    (a : Entity) : ∀ l, List.orderedInsert r a l = List.orderedInsert s a l
  | [] => rfl
  | b :: l => by
    simp only [List.orderedInsert]
    by_cases hr : r a b
    · rw [if_pos hr, if_pos ((h a b).mp hr)]
    · rw [if_neg hr, if_neg (fun hs => hr ((h a b).mpr hs)),
        orderedInsert_congr r s h a l]

lemma insertionSort_congr (r s : Entity → Entity → Prop)
    [DecidableRel r] [DecidableRel s] (h : ∀ x y, r x y ↔ s x y) :
    ∀ l, List.insertionSort r l = List.insertionSort s l
  | [] => rfl
  | a :: l => by
    simp only [List.insertionSort]
    rw [insertionSort_congr r s h l, orderedInsert_congr r s h]

lemma sweep_mem : ∀ (l : List Entity) (lastEnd : Int) (e : Entity),
    e ∈ sweep lastEnd l → e ∈ l
  | [], _, _, h => by simp [sweep] at h
  | a :: rest, lastEnd, e, h => by
    simp only [sweep] at h
    split at h
    · rcases List.mem_cons.mp h with h | h
      · exact h ▸ List.mem_cons_self a rest
      · exact List.mem_cons_of_mem a (sweep_mem rest _ e h)
    · exact List.mem_cons_of_mem a (sweep_mem rest _ e h)

/-- Soundness of the greedy sweep: the accepted spans touch or are
disjoint in scan order, and all accepted spans start at or after the
initial `last_end`. -/
lemma sweep_sound : ∀ (l : List Entity) (lastEnd : Int),
    (∀ e ∈ l, e.start < e.stop) →
    (sweep lastEnd l).Pairwise (fun a b => a.stop ≤ b.start) ∧
      ∀ e ∈ sweep lastEnd l, lastEnd ≤ (e.start : Int)
  | [], lastEnd, _ => by simp [sweep]
  | a :: rest, lastEnd, hwf => by
    have hwf' : ∀ e ∈ rest, e.start < e.stop := fun e he =>
      hwf e (List.mem_cons_of_mem a he)
    simp only [sweep]
    split
    · rename_i hacc
      obtain ⟨pw, bound⟩ := sweep_sound rest (a.stop : Int) hwf'
      refine ⟨List.pairwise_cons.mpr ⟨fun b hb => ?_, pw⟩, ?_⟩
      · exact_mod_cast bound b hb
      · intro e he
        rcases List.mem_cons.mp he with h | h
        · exact h ▸ hacc
        · have h1 : (a.start : Int) < (a.stop : Int) := by
            exact_mod_cast hwf a (List.mem_cons_self a rest)
          have h2 := bound e h
          omega
    · exact sweep_sound rest lastEnd hwf'

/-- C2.  Non-overlap invariant: for any candidate pool of well-formed
spans (`start < end`), any two spans in the resolver's output touch or
are disjoint (`a.end <= b.start` or `b.end <= a.start`), and the output
is sorted by `start`. -/
theorem remove_overlaps_sound (pool : List Entity)
    (hwf : ∀ e ∈ pool, e.start < e.stop) :
    (remove_overlaps pool).Pairwise
        (fun a b => a.stop ≤ b.start ∨ b.stop ≤ a.start) ∧
      (remove_overlaps pool).Pairwise (fun a b => a.start ≤ b.start) := by
  unfold remove_overlaps
  split
  · simp
  · have hperm := List.perm_insertionSort sortLE pool
    have hwf' : ∀ e ∈ List.insertionSort sortLE pool, e.start < e.stop :=
      fun e he => hwf e (hperm.mem_iff.mp he)
    obtain ⟨pw, _⟩ := sweep_sound (List.insertionSort sortLE pool) (-1) hwf'
    have hmemwf : ∀ e ∈ sweep (-1) (List.insertionSort sortLE pool),
        e.start < e.stop := fun e he => hwf' e (sweep_mem _ _ e he)
    constructor
    · exact pw.imp fun h => Or.inl h
    · refine List.Pairwise.imp_of_mem ?_ pw
      intro a b ha _ hab
      have := hmemwf a ha
      omega

/-- Witness for C2 on a pool of two overlapping, unsorted candidates. -/
theorem remove_overlaps_sound_witness :
    (remove_overlaps
          [⟨3, 8, "Date_Placeholder", [], 50⟩,
            ⟨0, 5, "Financial_Amount_Placeholder", [], 70⟩]).Pairwise
        (fun a b => a.stop ≤ b.start ∨ b.stop ≤ a.start) ∧
      (remove_overlaps
          [⟨3, 8, "Date_Placeholder", [], 50⟩,
            ⟨0, 5, "Financial_Amount_Placeholder", [], 70⟩]).Pairwise
        (fun a b => a.start ≤ b.start) :=
  remove_overlaps_sound
    [⟨3, 8, "Date_Placeholder", [], 50⟩,
      ⟨0, 5, "Financial_Amount_Placeholder", [], 70⟩]
    (by decide)

/-- C3.  The resolver equals the spec's algorithm: stable-sort the pool
by (start ascending, priority descending, length descending), then scan
once from `last_end = -1`, accepting iff `start >= last_end`; and the
priority table ranks incorporation date > address > trading symbol >
company name > amount > concept > general date. -/
theorem resolver_matches_spec_algorithm :
    (∀ pool : List Entity,
        remove_overlaps pool = sweep (-1) (List.insertionSort specLE pool)) ∧
      ENTITY_PRIORITIES ("IncorporationDate") >
          ENTITY_PRIORITIES ("AddressOfRegisteredOfficeOfEntity") ∧
      ENTITY_PRIORITIES ("AddressOfRegisteredOfficeOfEntity") >
          ENTITY_PRIORITIES ("EntityPrimaryTradingSymbol") ∧
      ENTITY_PRIORITIES ("EntityPrimaryTradingSymbol") >
          ENTITY_PRIORITIES ("NameOfReportingEntityOrOtherMeansOfIdentification") ∧
      ENTITY_PRIORITIES ("NameOfReportingEntityOrOtherMeansOfIdentification") >
          ENTITY_PRIORITIES ("Financial_Amount_Placeholder") ∧
      ENTITY_PRIORITIES ("Financial_Amount_Placeholder") >
          ENTITY_PRIORITIES ("Financial_Concept_Placeholder") ∧
      ENTITY_PRIORITIES ("Financial_Concept_Placeholder") >
          ENTITY_PRIORITIES ("Date_Placeholder") := by
  refine ⟨fun pool => ?_, by decide, by decide, by decide, by decide,
    by decide, by decide⟩
  unfold remove_overlaps
  split
  · rename_i h
    subst h
    rfl
  · rw [insertionSort_congr sortLE specLE sortLE_iff_specLE]

/-- C4 counterexample: an earlier-starting lower-priority span blocks a
later-starting higher-priority overlapping span, in both insertion
orders, so the resolver does not always keep the higher-priority one of
two overlapping candidates. -/
theorem priority_dominance_cex :
    (⟨5, 7, "IncorporationDate", [], 100⟩ : Entity).priority >
        (⟨0, 10, "Financial_Concept_Placeholder", [], 60⟩ : Entity).priority ∧
      (⟨0, 10, "Financial_Concept_Placeholder", [], 60⟩ : Entity).start <
          (⟨5, 7, "IncorporationDate", [], 100⟩ : Entity).stop ∧
      (⟨5, 7, "IncorporationDate", [], 100⟩ : Entity).start <
          (⟨0, 10, "Financial_Concept_Placeholder", [], 60⟩ : Entity).stop ∧
      remove_overlaps
          [⟨0, 10, "Financial_Concept_Placeholder", [], 60⟩,
            ⟨5, 7, "IncorporationDate", [], 100⟩] =
        [⟨0, 10, "Financial_Concept_Placeholder", [], 60⟩] ∧
      remove_overlaps
          [⟨5, 7, "IncorporationDate", [], 100⟩,
            ⟨0, 10, "Financial_Concept_Placeholder", [], 60⟩] =
        [⟨0, 10, "Financial_Concept_Placeholder", [], 60⟩] := by
  decide

/-- C4 amended: for a pool of exactly two overlapping candidates of
different priority, the resolver keeps the higher-priority one in either
insertion order, provided the higher-priority candidate starts no later
than the lower-priority one. -/
theorem priority_dominance_amended (a b : Entity)
    (hov : a.start < b.stop ∧ b.start < a.stop)
    (hpri : b.priority < a.priority)
    (hstart : a.start ≤ b.start) :
    remove_overlaps [a, b] = [a] ∧ remove_overlaps [b, a] = [a] := by
  have hab : sortLE a b := by simp only [sortLE]; omega
  have hba : ¬ sortLE b a := by simp only [sortLE]; omega
  have hsort1 : List.insertionSort sortLE [a, b] = [a, b] := by
    simp [List.insertionSort, List.orderedInsert, hab]
  have hsort2 : List.insertionSort sortLE [b, a] = [a, b] := by
    simp [List.insertionSort, List.orderedInsert, hba]
  have hfirst : (-1 : Int) ≤ (a.start : Int) := by omega
  have hblock : ¬ ((a.stop : Int) ≤ (b.start : Int)) := by
    have := hov.2
    omega
  have hsweep : sweep (-1) [a, b] = [a] := by
    simp [sweep, hfirst, hblock]
  constructor
  · unfold remove_overlaps
    rw [if_neg (by simp), hsort1, hsweep]
  · unfold remove_overlaps
    rw [if_neg (by simp), hsort2, hsweep]

/-- Witness for the amended C4 at a concrete two-candidate pool. -/
theorem priority_dominance_amended_witness :
    remove_overlaps
        [⟨0, 5, "IncorporationDate", [], 100⟩,
          ⟨3, 8, "Date_Placeholder", [], 50⟩] =
      [⟨0, 5, "IncorporationDate", [], 100⟩] ∧
    remove_overlaps
        [⟨3, 8, "Date_Placeholder", [], 50⟩,
          ⟨0, 5, "IncorporationDate", [], 100⟩] =
      [⟨0, 5, "IncorporationDate", [], 100⟩] :=
  priority_dominance_amended
    ⟨0, 5, "IncorporationDate", [], 100⟩
    ⟨3, 8, "Date_Placeholder", [], 50⟩
    (by decide) (by decide) (by decide)

lemma pySlice_append_drop (s : List Char) (a b : Nat) (h : a ≤ b) :
    pySlice s a b ++ s.drop b = s.drop a := by
  unfold pySlice
  rcases le_or_lt a s.length with hs | hs
  · conv_rhs => rw [← List.take_append_drop b s]
    rw [List.drop_append_eq_append_drop]
    have hlen : (s.take b).length = min b s.length := List.length_take b s
    have h0 : a - (s.take b).length = 0 := by omega
    rw [h0, List.drop_zero]
  · have h1 : s.drop a = [] := List.drop_eq_nil_of_le (by omega)
    have h2 : s.drop b = [] := List.drop_eq_nil_of_le (by omega)
    have h3 : (s.take b).drop a = [] := by
      refine List.drop_eq_nil_of_le ?_
      rw [List.length_take]
      omega
    simp [h1, h2, h3]

lemma tagPieces_flatten (s : List Char) :
    ∀ (es : List Entity) (pos : Nat),
      (∀ e ∈ es, e.start ≤ e.stop ∧ e.text = pySlice s e.start e.stop) →
      List.Chain' (fun a b => a.stop ≤ b.start) es →
      (∀ e, es.head? = some e → pos ≤ e.start) →
      (tagPieces s pos es).flatten = s.drop pos
  | [], pos, _, _, _ => by
    simp [tagPieces, pySlice, List.take_length]
  | e :: rest, pos, hwf, hchain, hpos => by
    have he := hwf e (List.mem_cons_self e rest)
    have hrest : ∀ b ∈ rest, b.start ≤ b.stop ∧ b.text = pySlice s b.start b.stop :=
      fun b hb => hwf b (List.mem_cons_of_mem e hb)
    have hchain' := (List.chain'_cons'.mp hchain)
    simp only [tagPieces, List.flatten_cons]
    rw [tagPieces_flatten s rest e.stop hrest hchain'.2
        (fun b hb => hchain'.1 b hb), he.2,
      pySlice_append_drop s e.start e.stop he.1,
      pySlice_append_drop s pos e.start (hpos e rfl)]

/-- C1.  Round-trip: for every paragraph text and every start-sorted,
pairwise non-overlapping span list whose `text` fields equal
`text[start:end]`, concatenating `tag_text`'s output text stream (plain
segments plus tagged inner texts, in order, markers removed) reproduces
the original text exactly; and with an empty span list `tag_text`
returns the text unchanged. -/
theorem tag_overlay_round_trip (s : List Char) (es : List Entity)
    (hsorted : es.Pairwise (fun a b => a.start ≤ b.start))
    (hnol : es.Pairwise (fun a b => a.stop ≤ b.start ∨ b.stop ≤ a.start))
    (hwf : ∀ e ∈ es, e.start < e.stop ∧ e.text = pySlice s e.start e.stop) :
    (tagStream s es).flatten = s ∧ tag_text s [] = s := by
  refine ⟨?_, rfl⟩
  unfold tagStream
  have hsorted' : List.Sorted startLE es := hsorted
  rw [List.Sorted.insertionSort_eq hsorted']
  have hchain : List.Chain' (fun a b => a.stop ≤ b.start) es := by
    refine (List.Pairwise.imp_of_mem ?_ (hsorted.and hnol)).chain'
    intro a b _ hb hab
    have hb' := (hwf b hb).1
    rcases hab.2 with h | h
    · exact h
    · omega
  have := tagPieces_flatten s es 0
    (fun e he => ⟨le_of_lt (hwf e he).1, (hwf e he).2⟩) hchain
    (fun e _ => Nat.zero_le _)
  simpa using this

/-- Witness for C1 on a concrete paragraph with one span. -/
theorem tag_overlay_round_trip_witness :
    (tagStream (("ab $12 cd").toList)
          [⟨3, 6, "Financial_Amount_Placeholder", ("$12").toList, 70⟩]).flatten =
        ("ab $12 cd").toList ∧
      tag_text (("ab $12 cd").toList) [] = ("ab $12 cd").toList :=
  tag_overlay_round_trip (("ab $12 cd").toList)
    [⟨3, 6, "Financial_Amount_Placeholder", ("$12").toList, 70⟩]
    (by decide) (by decide) (by decide)

lemma detectAux_flatMap : ∀ (l : List Para) (cur : Option Subsec),
    (detectAux l cur).flatMap Subsec.paragraphs =
      (cur.toList.flatMap Subsec.paragraphs) ++ l
  | [], cur => by simp [detectAux]
  | p :: rest, cur => by
    simp only [detectAux]
    split
    · simp [detectAux_flatMap rest none]
    · split
      · simp [detectAux_flatMap rest
          (some ⟨TAG_IDS ("going_concern_description"), [p], false⟩)]
      · match cur with
        | none =>
          rw [detectAux_flatMap rest
            (some ⟨TAG_IDS ("operations_description"), [p], false⟩)]
          simp
        | some c =>
          rw [detectAux_flatMap rest (some (appendPara c p))]
          simp [appendPara]

lemma detectAux_ne_nil : ∀ (l : List Para) (cur : Option Subsec),
    (∀ c, cur = some c → c.paragraphs ≠ []) →
    ∀ sub ∈ detectAux l cur, sub.paragraphs ≠ []
  | [], cur, hcur => by
    intro sub hsub
    match cur with
    | none => simp [detectAux] at hsub
    | some c =>
      simp only [detectAux, Option.toList_some, List.mem_singleton] at hsub
      exact hsub ▸ hcur c rfl
  | p :: rest, cur, hcur => by
    intro sub hsub
    simp only [detectAux] at hsub
    have hcl : ∀ x ∈ cur.toList, x.paragraphs ≠ [] := by
      intro x hx
      match cur with
      | none => simp at hx
      | some c =>
        simp only [Option.toList_some, List.mem_singleton] at hx
        exact hx ▸ hcur c rfl
    split at hsub
    · rcases List.mem_append.mp hsub with h | h
      · exact hcl sub h
      · rcases List.mem_cons.mp h with h | h
        · subst h; simp
        · exact detectAux_ne_nil rest none (by simp) sub h
    · split at hsub
      · rcases List.mem_append.mp hsub with h | h
        · exact hcl sub h
        · refine detectAux_ne_nil rest _ ?_ sub h
          rintro c hc
          injection hc with hc
          subst hc
          simp
      · rename_i hcur'
        match cur with
        | none =>
          exact detectAux_ne_nil rest _ (by rintro c h; injection h with h; subst h; simp) sub hsub
        | some c =>
          refine detectAux_ne_nil rest _ ?_ sub hsub
          rintro d hd
          injection hd with hd
          subst hd
          simp [appendPara]

/-- C6.  Segmentation total coverage and order: concatenating the
subsections' paragraph lists in emission order yields exactly the input
paragraph sequence (so every paragraph lands in exactly one subsection,
in order), every emitted subsection is non-empty, and empty input yields
zero subsections. -/
theorem segmentation_total_coverage (paragraphs : List Para) :
    (detect_subsections paragraphs).flatMap Subsec.paragraphs = paragraphs ∧
      (∀ sub ∈ detect_subsections paragraphs, sub.paragraphs ≠ []) ∧
      detect_subsections ([] : List Para) = [] := by
  refine ⟨?_, ?_, rfl⟩
  · have := detectAux_flatMap paragraphs none
    simpa [detect_subsections] using this
  · exact detectAux_ne_nil paragraphs none (by simp)

/-- Witness for C6 on a concrete three-paragraph note. -/
theorem segmentation_total_coverage_witness :
    (detect_subsections
          [⟨("1. NATURE OF OPERATIONS").toList, 1⟩,
            ⟨("BestCo Ltd. operates.").toList, 2⟩]).flatMap Subsec.paragraphs =
        [⟨("1. NATURE OF OPERATIONS").toList, 1⟩,
          ⟨("BestCo Ltd. operates.").toList, 2⟩] ∧
      (∀ sub ∈ detect_subsections
          [⟨("1. NATURE OF OPERATIONS").toList, 1⟩,
            ⟨("BestCo Ltd. operates.").toList, 2⟩], sub.paragraphs ≠ []) ∧
      detect_subsections ([] : List Para) = [] :=
  segmentation_total_coverage
    [⟨("1. NATURE OF OPERATIONS").toList, 1⟩,
      ⟨("BestCo Ltd. operates.").toList, 2⟩]

lemma dropWhile_append_of_all {p : Char → Bool} {l₁ l₂ : List Char}
    (h : ∀ c ∈ l₁, p c = true) :
    (l₁ ++ l₂).dropWhile p = l₂.dropWhile p := by
  induction l₁ with
  | nil => simp
  | cons c cs ih =>
    rw [List.cons_append, List.dropWhile_cons,
      if_pos (h c (List.mem_cons_self c cs))]
    exact ih fun d hd => h d (List.mem_cons_of_mem c hd)

lemma startsDigitsDot_iff (t : List Char) :
    startsDigitsDot t = true ↔
      ∃ ds rest, t = ds ++ '.' :: rest ∧ ds ≠ [] ∧
        ∀ c ∈ ds, c.isDigit = true := by
  constructor
  · intro h
    match ht : t with
    | [] => simp [startsDigitsDot] at h
    | c :: t' =>
      simp only [startsDigitsDot, Bool.and_eq_true, decide_eq_true_eq] at h
      obtain ⟨hc, hdw⟩ := h
      refine ⟨(c :: t').takeWhile Char.isDigit,
        ((c :: t').dropWhile Char.isDigit).tail, ?_, ?_, ?_⟩
      · cases hd : (c :: t').dropWhile Char.isDigit with
        | nil => rw [hd] at hdw; simp at hdw
        | cons x xs =>
          rw [hd] at hdw
          simp only [List.head?_cons, Option.some.injEq] at hdw
          subst hdw
          conv_lhs => rw [← List.takeWhile_append_dropWhile Char.isDigit (c :: t')]
          rw [hd]
          simp
      · rw [List.takeWhile_cons, if_pos hc]
        simp
      · exact fun d hd => List.mem_takeWhile_imp hd
  · rintro ⟨ds, rest, rfl, hne, hdig⟩
    match ds, hne with
    | d :: ds', _ =>
      have hdrop : ((d :: ds') ++ '.' :: rest).dropWhile Char.isDigit =
          '.' :: rest := by
        rw [dropWhile_append_of_all hdig, List.dropWhile_cons]
        simp
      simp only [startsDigitsDot, List.cons_append, Bool.and_eq_true,
        decide_eq_true_eq]
      constructor
      · exact hdig d (List.mem_cons_self d ds')
      · rw [← List.cons_append, hdrop]
        simp

lemma headerContent_eq {t ds rest : List Char} (h : t = ds ++ '.' :: rest)
    (hdig : ∀ c ∈ ds, c.isDigit = true) :
    headerContent t = pyStrip rest := by
  subst h
  have hmem : '.' ∈ ds ++ '.' :: rest := by simp
  have hall : ∀ c ∈ ds, notDot c = true := by
    intro c hc
    have := hdig c hc
    simp only [notDot, bne_iff_ne, ne_eq]
    intro hdot
    subst hdot
    simp at this
  rw [headerContent, if_pos hmem, dropWhile_append_of_all hall,
    List.dropWhile_cons]
  simp [notDot]

lemma digitsDot_unique : ∀ (ds ds' rest rest' : List Char),
    (∀ c ∈ ds, c.isDigit = true) → (∀ c ∈ ds', c.isDigit = true) →
    ds ++ '.' :: rest = ds' ++ '.' :: rest' → rest = rest'
  | [], [], _, _, _, _, h => by simpa using h
  | [], d' :: ds', _, _, _, hd', h => by
    simp only [List.nil_append, List.cons_append, List.cons.injEq] at h
    have := hd' d' (List.mem_cons_self d' ds')
    rw [← h.1] at this
    simp at this
  | d :: ds, [], _, _, hd, _, h => by
    simp only [List.nil_append, List.cons_append, List.cons.injEq] at h
    have := hd d (List.mem_cons_self d ds)
    rw [h.1] at this
    simp at this
  | d :: ds, d' :: ds', rest, rest', hd, hd', h => by
    simp only [List.cons_append, List.cons.injEq] at h
    exact digitsDot_unique ds ds' rest rest'
      (fun c hc => hd c (List.mem_cons_of_mem d hc))
      (fun c hc => hd' c (List.mem_cons_of_mem d' hc)) h.2

/-- C7.  Header handling: a paragraph is a header iff its stripped text
is a non-empty digit run, then `'.'`, then content whose stripped form
has strictly more than 50 percent uppercase characters; in
`detect_subsections` a header paragraph closes the open section and
becomes its own single-paragraph `Header` subsection with
`skip_tagging = true`; and `"1. NATURE OF OPERATIONS"` concretely yields
exactly that single header subsection. -/
theorem header_handling :
    (∀ t : List Char,
        is_header t = true ↔
          ∃ ds rest, pyStrip t = ds ++ '.' :: rest ∧ ds ≠ [] ∧
            (∀ c ∈ ds, c.isDigit = true) ∧
            2 * (pyStrip rest).countP Char.isUpper >
              max (pyStrip rest).length 1) ∧
      (∀ (p : Para) (paras : List Para) (cur : Option Subsec),
          is_header p.text = true →
          detectAux (p :: paras) cur =
            cur.toList ++
              ⟨TAG_IDS ("header"), [p], true⟩ :: detectAux paras none) ∧
      detect_subsections [⟨("1. NATURE OF OPERATIONS").toList, 0⟩] =
        [⟨TAG_IDS ("header"),
          [⟨("1. NATURE OF OPERATIONS").toList, 0⟩], true⟩] := by
  refine ⟨fun t => ?_, fun p paras cur h => ?_, by decide⟩
  · cases hsd : startsDigitsDot (pyStrip t) with
    | false =>
      simp only [is_header, hsd, if_false]
      constructor
      · intro h
        simp at h
      · rintro ⟨ds, rest, hdec, hne, hdig, -⟩
        rw [(startsDigitsDot_iff (pyStrip t)).mpr ⟨ds, rest, hdec, hne, hdig⟩]
          at hsd
        simp at hsd
    | true =>
      obtain ⟨ds, rest, hdec, hne, hdig⟩ := (startsDigitsDot_iff _).mp hsd
      simp only [is_header, hsd, if_true, headerContent_eq hdec hdig,
        decide_eq_true_eq]
      constructor
      · intro h
        exact ⟨ds, rest, hdec, hne, hdig, h⟩
      · rintro ⟨ds', rest', hdec', -, hdig', hrat⟩
        rw [digitsDot_unique ds ds' rest rest' hdig hdig'
          (hdec ▸ hdec')]
        exact hrat
  · simp [detectAux, h]

/-- Witness for C7: the header behaviour applied at the concrete header
paragraph. -/
theorem header_handling_witness :
    detectAux [⟨("1. NATURE OF OPERATIONS").toList, 0⟩] none =
      (none : Option Subsec).toList ++
        ⟨TAG_IDS ("header"),
          [⟨("1. NATURE OF OPERATIONS").toList, 0⟩], true⟩ ::
          detectAux [] none :=
  header_handling.2.1 ⟨("1. NATURE OF OPERATIONS").toList, 0⟩ [] none
    (by decide)

/-- C8 (code bug).  `extract_organizations` is supposed to return the
`"ORG"`-labelled entities without raising; on the empty entity list it
does return `[]`, but on any non-empty list — here a single organization
entity for `"BestCo Ltd."` — the filter reads the non-existent `label_`
attribute and raises `AttributeError` instead of returning the entity. -/
theorem ner_extract_organizations_attribute_slip :
    extract_organizations [⟨("BestCo Ltd.").toList, "ORG", 0, 11⟩] =
        Except.error
          ("AttributeError: NEREntity object has no attribute label_") ∧
      extract_organizations [] = Except.ok [] := by
  constructor
  · rfl
  · rfl

/-- C5 (code bug).  On the spec's Scenario 1 input the code yields two
accepted spans, both general dates — `"January 24, 2011"` and the
trailing `"2011"` — and no IncorporationDate at all: the context regex
demands the literal phrase `"was incorporated"`, which this input lacks,
so the incorporation extractor returns nothing (the repository's own
test `test_overlapping_dates_priority` asserts one IncorporationDate
span here and fails). -/
theorem scenario1_actual_output :
    extract_entities none
        (("incorporated on January 24, 2011 in the year 2011").toList) =
      [⟨16, 32, "Date_Placeholder", ("January 24, 2011").toList, 50⟩,
        ⟨45, 49, "Date_Placeholder", ("2011").toList, 50⟩] ∧
      extract_incorporation_dates
        (("incorporated on January 24, 2011 in the year 2011").toList) =
        [] := by
  decide

/-- C10.  The FinancialAmount pattern requires 1–3 digits after `$`
before optional comma groups, so on `"$1234"` the extractor produces
exactly one span, `"$123"` at offsets 0–4, leaving the fourth digit
untagged. -/
theorem amount_pattern_truncates :
    extract_amounts (("$1234").toList) =
      [⟨0, 4, "Financial_Amount_Placeholder", ("$123").toList, 70⟩] := by
  decide

lemma runRE_none_of_headFails (s : List Char) (pos : Nat) :
    ∀ re, headFails s[pos]? (wordBoundary s pos) re = true →
      ∀ (fuel : Nat) (g : Option (Nat × Nat))
        (k : Nat → Option (Nat × Nat) → MRes),
        runRE s fuel re pos g k = none := by
  intro re
  induction re with
  | eps => intro h; simp [headFails] at h
  | cls p =>
    intro h fuel g k
    match fuel with
    | 0 => rfl
    | fuel + 1 =>
      simp only [runRE]
      cases hc : s[pos]? with
      | none => rfl
      | some c =>
        rw [hc] at h
        simp only [headFails, Bool.not_eq_true'] at h
        simp [h]
  | seq a b iha _ =>
    intro h fuel g k
    match fuel with
    | 0 => rfl
    | fuel + 1 =>
      simp only [runRE]
      exact iha h fuel g _
  | alt a b iha ihb =>
    intro h fuel g k
    simp only [headFails, Bool.and_eq_true] at h
    match fuel with
    | 0 => rfl
    | fuel + 1 =>
      simp only [runRE]
      rw [iha h.1 fuel g k, ihb h.2 fuel g k]
  | star a _ => intro h; simp [headFails] at h
  | lazyStar a _ => intro h; simp [headFails] at h
  | opt a _ => intro h; simp [headFails] at h
  | grp a iha =>
    intro h fuel g k
    match fuel with
    | 0 => rfl
    | fuel + 1 =>
      simp only [runRE]
      exact iha h fuel g _
  | wordB =>
    intro h fuel g k
    match fuel with
    | 0 => rfl
    | fuel + 1 =>
      simp only [runRE]
      simp only [headFails, Bool.not_eq_true'] at h
      simp [h]

lemma ws_char_cases (c : Char) (h : pyIsSpace c = true) :
    c = ' ' ∨ c = '\t' ∨ c = '\n' ∨ c = '\r' ∨ c = '\x0b' ∨ c = '\x0c' := by
  simp only [pyIsSpace, Bool.or_eq_true, decide_eq_true_eq] at h
  tauto

lemma ws_not_word (c : Char) (h : pyIsSpace c = true) :
    isWordChar c = false := by
  rcases ws_char_cases c h with rfl | rfl | rfl | rfl | rfl | rfl <;> decide

lemma ws_wordBoundary {s : List Char}
    (hws : ∀ c ∈ s, pyIsSpace c = true) (pos : Nat) :
    wordBoundary s pos = false := by
  have hw : ∀ i, isWordAt s i = false := by
    intro i
    unfold isWordAt
    cases hc : s[i]? with
    | none => rfl
    | some c =>
      obtain ⟨hlt, hg⟩ := List.getElem?_eq_some.mp hc
      exact ws_not_word c (hws c (hg ▸ List.getElem_mem hlt))
  unfold wordBoundary
  cases pos <;> simp [hw]

lemma ws_headFails (oc : Option Char)
    (h : ∀ c, oc = some c → pyIsSpace c = true) :
    headFails oc false INCORPORATION_CONTEXT = true ∧
      headFails oc false ADDRESS_PATTERN = true ∧
      headFails oc false TRADING_SYMBOL_PATTERN = true ∧
      headFails oc false COMPANY_REGEX = true ∧
      headFails oc false AMOUNT_PATTERN = true ∧
      headFails oc false datePattern1 = true ∧
      headFails oc false datePattern2 = true := by
  match oc with
  | none => decide
  | some c =>
    rcases ws_char_cases c (h c rfl) with rfl | rfl | rfl | rfl | rfl | rfl <;>
      decide

lemma ws_option_char {s : List Char}
    (hws : ∀ c ∈ s, pyIsSpace c = true) (pos : Nat) :
    ∀ c, s[pos]? = some c → pyIsSpace c = true := by
  intro c hc
  obtain ⟨hlt, hg⟩ := List.getElem?_eq_some.mp hc
  exact hws c (hg ▸ List.getElem_mem hlt)

lemma tryAt_none {s : List Char} {re : RE}
    (hpat : ∀ pos, headFails s[pos]? (wordBoundary s pos) re = true)
    (i : Nat) : tryAt s re i = none := by
  unfold tryAt
  rw [runRE_none_of_headFails s i re (hpat i)]

lemma searchFrom_none {s : List Char} {re : RE}
    (hpat : ∀ pos, headFails s[pos]? (wordBoundary s pos) re = true) :
    ∀ (i fl : Nat), searchFrom s re i fl = none
  | _, 0 => rfl
  | i, fl + 1 => by
    simp only [searchFrom, tryAt_none hpat i]
    split
    · exact searchFrom_none hpat (i + 1) fl
    · rfl

lemma findFrom_nil {s : List Char} {re : RE}
    (hpat : ∀ pos, headFails s[pos]? (wordBoundary s pos) re = true) :
    ∀ (i fl : Nat), findFrom s re i fl = []
  | _, 0 => rfl
  | i, fl + 1 => by
    simp only [findFrom, tryAt_none hpat i]
    split
    · exact findFrom_nil hpat (i + 1) fl
    · rfl

/-- C9.  Empty- and whitespace-only-input safety: on the empty string
and on any text of whitespace characters, every extractor returns the
empty span sequence and the combined `extract_entities` (with the
named-entity provider absent, its fail-soft steady state) returns the
empty list. -/
theorem extractors_empty_and_whitespace_safe (s : List Char)
    (hws : ∀ c ∈ s, pyIsSpace c = true) :
    extract_incorporation_dates s = [] ∧ extract_addresses s = [] ∧
      extract_trading_symbols s = [] ∧
      extract_company_names_regex s = [] ∧
      extract_company_names_hybrid none s = [] ∧ extract_amounts s = [] ∧
      extract_financial_concepts s = [] ∧ extract_dates s = [] ∧
      extract_entities none s = [] := by
  have hoc := ws_option_char hws
  have hwb := ws_wordBoundary hws
  have hall := fun pos => ws_headFails s[pos]? (hoc pos)
  have hinc : ∀ pos,
      headFails s[pos]? (wordBoundary s pos) INCORPORATION_CONTEXT = true :=
    fun pos => by rw [hwb pos]; exact (hall pos).1
  have haddr : ∀ pos,
      headFails s[pos]? (wordBoundary s pos) ADDRESS_PATTERN = true :=
    fun pos => by rw [hwb pos]; exact (hall pos).2.1
  have htrad : ∀ pos,
      headFails s[pos]? (wordBoundary s pos) TRADING_SYMBOL_PATTERN = true :=
    fun pos => by rw [hwb pos]; exact (hall pos).2.2.1
  have hcomp : ∀ pos,
      headFails s[pos]? (wordBoundary s pos) COMPANY_REGEX = true :=
    fun pos => by rw [hwb pos]; exact (hall pos).2.2.2.1
  have hamt : ∀ pos,
      headFails s[pos]? (wordBoundary s pos) AMOUNT_PATTERN = true :=
    fun pos => by rw [hwb pos]; exact (hall pos).2.2.2.2.1
  have hd1 : ∀ pos,
      headFails s[pos]? (wordBoundary s pos) datePattern1 = true :=
    fun pos => by rw [hwb pos]; exact (hall pos).2.2.2.2.2.1
  have hd2 : ∀ pos,
      headFails s[pos]? (wordBoundary s pos) datePattern2 = true :=
    fun pos => by rw [hwb pos]; exact (hall pos).2.2.2.2.2.2
  have hd3 : ∀ pos,
      headFails s[pos]? (wordBoundary s pos) datePattern3 = true :=
    fun pos => by rw [hwb pos]; rfl
  have hconc : ∀ (c : String) (pos : Nat),
      headFails s[pos]? (wordBoundary s pos) (conceptPattern c) = true :=
    fun c pos => by rw [hwb pos]; rfl
  have e1 : extract_incorporation_dates s = [] := by
    unfold extract_incorporation_dates reSearch
    rw [searchFrom_none hinc 0 (s.length + 1)]
  have e2 : extract_addresses s = [] := by
    unfold extract_addresses reFindAll
    rw [findFrom_nil haddr 0 (s.length + 1)]
    rfl
  have e3 : extract_trading_symbols s = [] := by
    unfold extract_trading_symbols reFindAll
    rw [findFrom_nil htrad 0 (s.length + 1)]
    rfl
  have e4 : extract_company_names_regex s = [] := by
    unfold extract_company_names_regex reMatchAt0
    rw [tryAt_none hcomp 0]
  have e5 : extract_company_names_hybrid none s = [] := by
    unfold extract_company_names_hybrid
    rw [e4]
    rfl
  have e6 : extract_amounts s = [] := by
    unfold extract_amounts reFindAll
    rw [findFrom_nil hamt 0 (s.length + 1)]
    rfl
  have e7 : extract_financial_concepts s = [] := by
    unfold extract_financial_concepts FINANCIAL_CONCEPTS
    simp only [List.map_cons, List.map_nil]
    unfold reFindAll
    rw [findFrom_nil (hconc _) 0 (s.length + 1),
      findFrom_nil (hconc _) 0 (s.length + 1),
      findFrom_nil (hconc _) 0 (s.length + 1),
      findFrom_nil (hconc _) 0 (s.length + 1)]
    rfl
  have e8 : extract_dates s = [] := by
    unfold extract_dates DATE_PATTERNS
    simp only [List.map_cons, List.map_nil]
    unfold reFindAll
    rw [findFrom_nil hd1 0 (s.length + 1), findFrom_nil hd2 0 (s.length + 1),
      findFrom_nil hd3 0 (s.length + 1)]
    rfl
  refine ⟨e1, e2, e3, e4, e5, e6, e7, e8, ?_⟩
  unfold extract_entities
  rw [e1, e2, e3, e5, e6, e7, e8]
  rfl

theorem extractors_empty_and_whitespace_safe_witness :
    extract_incorporation_dates (("   \n\t   ").toList) = [] ∧
      extract_addresses (("   \n\t   ").toList) = [] ∧
      extract_trading_symbols (("   \n\t   ").toList) = [] ∧
      extract_company_names_regex (("   \n\t   ").toList) = [] ∧
      extract_company_names_hybrid none (("   \n\t   ").toList) = [] ∧
      extract_amounts (("   \n\t   ").toList) = [] ∧
      extract_financial_concepts (("   \n\t   ").toList) = [] ∧
      extract_dates (("   \n\t   ").toList) = [] ∧
      extract_entities none (("   \n\t   ").toList) = [] :=
  extractors_empty_and_whitespace_safe (("   \n\t   ").toList) (by decide)

end FNT


